import Mathlib

/-!
Verification development for the zeropool-js client library.

The definitions below are a shallow embedding of the ledger-reconciliation
core of `src/client.ts`: the multi-part transaction planner
(`getTransactionParts`), the fee estimator (`calcMaxAvailableTransfer`),
the optimistic balance aggregator (`getOptimisticTotalBalance`), the raw
log-entry classifier and sync worker (`classifyBatch`,
`updateStateOptimisticWorker`), the single-flight sync guard
(`syncStep` / `syncRun`), the job-polling loop (`waitJobCompleted`) and the
readiness poll (`waitReadyToTransact`).

JavaScript `bigint` values are modelled as `Int`, array indices and counts
as `Nat`, raw relayer entry strings as `List Char`, and thrown exceptions
as `Except String`.  Asynchronous promise settlement is modelled by an
explicit event-step relation on a guard state.
-/

namespace Zeropool

/-- `MIN_TX_AMOUNT` constant from `client.ts` (line 12), in Gwei. -/
def MIN_TX_AMOUNT : Int := 10000000

/-- `TX_FEE` constant from `client.ts` (line 13), in Gwei; `getRelayerFee`
always returns this value. -/
def TX_FEE : Int := 10000000

/-- The `TxAmount` interface of `client.ts`: one elementary transaction part. -/
structure TxAmount where
  amount : Int
  fee : Int
  accountLimit : Int
deriving DecidableEq

/-- The note-chunking loop of `getTransactionParts` (`client.ts` lines
673–688): walk the usable notes in spend order with index `i`, flushing the
running chunk sum whenever `i > 0 && i % CONSTANTS.IN == 0`, adding the
current note value, and pushing the final chunk at the last note.
`inMax` is `CONSTANTS.IN` (the file `constants.ts` is not part of the
sources, so the bound is kept as a parameter). -/
def notesPartsAux (inMax : Nat) : List Int → Nat → Int → List Int
  | [], _, _ => []
  | n :: rest, i, curPart =>
    let flushed : List Int := if 0 < i ∧ i % inMax = 0 then [curPart] else []
    let cur0 : Int := if 0 < i ∧ i % inMax = 0 then 0 else curPart
    let cur1 : Int := cur0 + n
    if rest.isEmpty then flushed ++ [cur1]
    else flushed ++ notesPartsAux inMax rest (i + 1) cur1

/-- Chunk sums of the usable notes, exactly as `notesParts` is built inside
`getTransactionParts`. -/
def notesParts (inMax : Nat) (noteValues : List Int) : List Int :=
  notesPartsAux inMax noteValues 0 0

/-- The part-building loop of `getTransactionParts` (`client.ts` lines
690–706): iterate over the note-chunk sums while `remainAmount > 0`; each
step adds the chunk to `oneTxPart` (which starts at `accountBalance` and is
reset to `0` after every accepted part), clamps the part to
`remainAmount + feeGwei` when it would overshoot, breaks when the part is
below the fee or below `MIN_TX_AMOUNT`, and otherwise pushes
`{amount: oneTxPart - feeGwei, fee: feeGwei}` and subtracts the amount from
`remainAmount`.  Returns the pushed parts together with the final
`remainAmount`. -/
def partsLoop (feeGwei : Int) : List Int → Int → Int → List TxAmount × Int
  | [], _, remainAmount => ([], remainAmount)
  | np :: rest, oneTxPart0, remainAmount =>
    if remainAmount ≤ 0 then ([], remainAmount)
    else
      let grown : Int := oneTxPart0 + np
      let oneTxPart : Int :=
        if grown - feeGwei > remainAmount then remainAmount + feeGwei else grown
      if oneTxPart < feeGwei ∨ oneTxPart < MIN_TX_AMOUNT then ([], remainAmount)
      else
        let tail := partsLoop feeGwei rest 0 (remainAmount - (oneTxPart - feeGwei))
        (⟨oneTxPart - feeGwei, feeGwei, 0⟩ :: tail.1, tail.2)

/-- `getTransactionParts` of `client.ts` (lines 657–714), over the data the
method reads from the account state: the ordered usable note values and the
account balance.  If the account balance alone covers `amountGwei + feeGwei`
a single part is returned; otherwise notes are chunked and the part loop
runs; if any amount remains unserved the whole plan is discarded. -/
def getTransactionParts (inMax : Nat) (noteValues : List Int)
    (accountBalance amountGwei feeGwei : Int) : List TxAmount :=
  if accountBalance ≥ amountGwei + feeGwei then
    [⟨amountGwei, feeGwei, 0⟩]
  else
    let nps := notesParts inMax noteValues
    let built := partsLoop feeGwei nps accountBalance amountGwei
    if built.2 > 0 then [] else built.1

/-- `Math.ceil(a / b)` for natural `a`, `b`, as used on the (integral)
note-count arithmetic of `calcMaxAvailableTransfer`. -/
def ceilDivNat (a b : Nat) : Nat := (a + b - 1) / b

/-- `calcMaxAvailableTransfer` of `client.ts` (lines 624–653), over the data
read from the account state.  `txFee` is the per-transaction fee returned by
`atomicTxFee`. -/
def calcMaxAvailableTransfer (inMax : Nat) (noteValues : List Int)
    (accountBalance txFee : Int) : Int :=
  let txCnt : Nat :=
    if inMax < noteValues.length then 1 + ceilDivNat (noteValues.length - inMax) inMax
    else 1
  let notesBalance : Int := noteValues.foldl (fun a b => a + b) 0
  let summ : Int := accountBalance + notesBalance - txFee * (txCnt : Int)
  if summ < 0 then 0 else summ

/-- The part-count formula stated by the spec (section 4.3):
`1 + ceil(max(0, noteCount − MAX_INPUTS) / MAX_INPUTS)`.  Natural
subtraction realizes `max(0, ·)`. -/
def specEstimatedPartCount (inMax noteCount : Nat) : Nat :=
  1 + ceilDivNat (noteCount - inMax) inMax

/-- The closed-form value the spec states for `calcMaxAvailableTransfer`:
`max(0, accountBalance + Σ(usableNotes) − feePerTx × estimatedPartCount)`. -/
def specMaxAvailableTransfer (inMax : Nat) (noteValues : List Int)
    (accountBalance txFee : Int) : Int :=
  max 0 (accountBalance + noteValues.sum
    - txFee * (specEstimatedPartCount inMax noteValues.length : Int))

/-- The `HistoryTransactionType` variants the optimistic-balance switch in
`getOptimisticTotalBalance` distinguishes (the history module itself is not
among the sources; the variants are modelled from the spec's data model). -/
inductive HistoryTransactionType where
  | Deposit
  | TransferIn
  | TransferOut
  | Withdrawal
deriving DecidableEq

/-- A history record as consumed by `getOptimisticTotalBalance`. -/
structure HistoryRecord where
  type : HistoryTransactionType
  amount : Int
  fee : Int
  pending : Bool
deriving DecidableEq

/-- The pending-delta accumulation loop of `getOptimisticTotalBalance`
(`client.ts` lines 206–225): pending deposits and incoming transfers add
their amount, pending withdrawals and outgoing transfers subtract
`amount + fee`, everything else contributes nothing. -/
def pendingDeltaStep (acc : Int) (r : HistoryRecord) : Int :=
  if r.pending then
    match r.type with
    | .Deposit => acc + r.amount
    | .TransferIn => acc + r.amount
    | .Withdrawal => acc - (r.amount + r.fee)
    | .TransferOut => acc - (r.amount + r.fee)
  else acc

/-- `getOptimisticTotalBalance` of `client.ts` (lines 200–228), over the
confirmed total balance and the full history record list. -/
def getOptimisticTotalBalance (confirmedBalance : Int)
    (historyRecords : List HistoryRecord) : Int :=
  confirmedBalance + historyRecords.foldl pendingDeltaStep 0

/-- Sum of the pending incoming amounts, as the spec words it. -/
def pendingIncomingSum (historyRecords : List HistoryRecord) : Int :=
  (historyRecords.map (fun r =>
    if r.pending ∧ (r.type = .Deposit ∨ r.type = .TransferIn) then r.amount
    else 0)).sum

/-- Sum of the pending outgoing amounts plus their fees, as the spec words it. -/
def pendingOutgoingSum (historyRecords : List HistoryRecord) : Int :=
  (historyRecords.map (fun r =>
    if r.pending ∧ (r.type = .Withdrawal ∨ r.type = .TransferOut) then r.amount + r.fee
    else 0)).sum

/-- The `IndexedTx` record handed to the decryption capability
(`worker.parseTxs`): first leaf index, memo block and commitment. -/
structure IndexedTx where
  index : Nat
  memo : List Char
  commitment : List Char
deriving DecidableEq

/-- Field extraction of one raw relayer entry at batch offset `i` and batch
position `txIdx` (`client.ts` lines 819–832): `memo_idx = i + txIdx * OUTPLUSONE`,
`memo = tx.slice(129)`, `commitment = tx.substr(65, 64)`. -/
def parseEntry (i opo txIdx : Nat) (tx : List Char) : IndexedTx :=
  ⟨i + txIdx * opo, tx.drop 129, (tx.drop 65).take 64⟩

/-- `txHash = tx.substr(1, 64)` (`client.ts` line 835). -/
def entryTxHash (tx : List Char) : List Char := (tx.drop 1).take 64

/-- Result of classifying one fetched batch (`client.ts` lines 807–847):
mined entries (with their hashes) and pending entries (with their hashes),
plus the running maxima initialised at `-1`. -/
structure BatchClassification where
  indexedTxs : List IndexedTx
  txHashes : List (Nat × List Char)
  indexedTxsPending : List IndexedTx
  txHashesPending : List (Nat × List Char)
  maxMinedIndex : Int
  maxPendingIndex : Int
deriving DecidableEq

/-- The per-entry classification loop of `updateStateOptimisticWorker`
(`client.ts` lines 816–847): decode the fields of each entry by fixed
offsets and route it to the mined lists when `tx.substr(0, 1) === '1'`,
otherwise to the pending lists. -/
def classifyAux (i opo : Nat) : Nat → List (List Char) → BatchClassification
  | _, [] => ⟨[], [], [], [], -1, -1⟩
  | txIdx, tx :: rest =>
    let c := classifyAux i opo (txIdx + 1) rest
    let memoIdx : Nat := i + txIdx * opo
    let e : IndexedTx := parseEntry i opo txIdx tx
    let h : List Char := '0' :: 'x' :: entryTxHash tx
    if tx.take 1 = ['1'] then
      { c with indexedTxs := e :: c.indexedTxs,
               txHashes := (memoIdx, h) :: c.txHashes,
               maxMinedIndex := max c.maxMinedIndex (memoIdx : Int) }
    else
      { c with indexedTxsPending := e :: c.indexedTxsPending,
               txHashesPending := (memoIdx, h) :: c.txHashesPending,
               maxPendingIndex := max c.maxPendingIndex (memoIdx : Int) }

/-- Classification of a whole fetched batch starting at offset `i`. -/
def classifyBatch (i opo : Nat) (txs : List (List Char)) : BatchClassification :=
  classifyAux i opo 0 txs

/-- A decrypted memo as far as the sync worker inspects it: its index and
whether the `acc` field is present (a self-originated spend). -/
structure DecryptedMemo where
  index : Nat
  accPresent : Bool
deriving DecidableEq

/-- Offsets of the batch-fetch loop `for (i = startIndex; i <= nextIndex;
i += BATCH_SIZE * OUTPLUSONE)` of `client.ts` line 803.  The fuel
`next + 1 - start` bounds the iteration count exactly whenever the step is
positive (in the source the step is `10000 * OUTPLUSONE > 0`). -/
def batchStartsAux (next step : Nat) : Nat → Nat → List Nat
  | _, 0 => []
  | start, fuel + 1 =>
    if start ≤ next then start :: batchStartsAux next step (start + step) fuel
    else []

/-- The list of batch offsets fetched for the range `[start, next]`. -/
def batchStarts (start next step : Nat) : List Nat :=
  batchStartsAux next step start (next + 1 - start)

/-- Outcome of one sync cycle: the returned `readyToTransact` flag and the
offsets of the batch fetches the cycle issued. -/
structure SyncOutcome where
  readyToTransact : Bool
  fetchOffsets : List Nat
deriving DecidableEq

/-- `BATCH_SIZE` constant of `updateStateOptimisticWorker` (`client.ts`
line 782). -/
def BATCH_SIZE : Nat := 10000

/-- Control skeleton of `updateStateOptimisticWorker` (`client.ts` lines
780–909): `startIndex` is the local `nextTreeIndex`, `nextIndex` the
relayer-reported `deltaIndex`, and `optimisticIndex = nextIndex + 1` (the
documented workaround).  When `optimisticIndex > startIndex` the range is
fetched in batches; the cycle is ready to transact unless some batch holds a
pending entry whose decrypted memo has the `acc` field set.  Otherwise no
fetch is issued and the worker returns `true`.  `fetchTxs` abstracts the
relayer transport and `parseTxs` the decryption capability. -/
def updateStateOptimisticWorker (opo : Nat) (startIndex nextIndex : Nat)
    (fetchTxs : Nat → List (List Char))
    (parseTxs : List IndexedTx → List DecryptedMemo) : SyncOutcome :=
  let optimisticIndex := nextIndex + 1
  if optimisticIndex > startIndex then
    let offs := batchStarts startIndex nextIndex (BATCH_SIZE * opo)
    let ready := offs.all (fun i =>
      let c := classifyBatch i opo (fetchTxs i)
      if 0 < c.indexedTxsPending.length then
        (parseTxs c.indexedTxsPending).all (fun m => !m.accPresent)
      else true)
    ⟨ready, offs⟩
  else ⟨true, []⟩

/-- State of the single-flight guard of `updateState` (`client.ts` lines
764–774): `inFlight` models the `updateStatePromise` field together with the
callers awaiting it, `cyclesStarted` counts invocations of the underlying
worker, and `resolved` records each caller's settled outcome (`none` models
a rejected promise, i.e. a failed cycle). -/
structure SyncGuardState where
  inFlight : Option (List Nat)
  cyclesStarted : Nat
  resolved : List (Nat × Option Bool)
deriving DecidableEq

/-- Events of the cooperative scheduling model: a caller invoking
`updateState`, or the in-flight worker promise settling (with `some b` on
success, `none` on failure). -/
inductive SyncEvent where
  | call (c : Nat)
  | settle (r : Option Bool)
deriving DecidableEq

/-- One scheduling step.  A call finding no in-flight promise starts the
worker (one new cycle) and awaits it; a call finding one merely awaits the
same promise.  Settlement delivers the single outcome to every awaiting
caller and clears the guard (the `.finally` of `client.ts` line 766, which
runs on both fulfilment and rejection). -/
def syncStep (s : SyncGuardState) : SyncEvent → SyncGuardState
  | .call c =>
    match s.inFlight with
    | none => { s with inFlight := some [c], cyclesStarted := s.cyclesStarted + 1 }
    | some cs => { s with inFlight := some (cs ++ [c]) }
  | .settle r =>
    match s.inFlight with
    | none => s
    | some cs =>
      { inFlight := none, cyclesStarted := s.cyclesStarted,
        resolved := s.resolved ++ cs.map (fun c => (c, r)) }

/-- Run a sequence of scheduling events. -/
def syncRun (s : SyncGuardState) (evs : List SyncEvent) : SyncGuardState :=
  evs.foldl syncStep s

/-- A fresh client: no promise in flight, no cycles run. -/
def initialSyncState : SyncGuardState := ⟨none, 0, []⟩

/-- One locally proven transaction as the sending methods see it: the memo
and the result of `Proof.verify` on its locally generated proof. -/
structure ProvenTx where
  memo : List Char
  proofValid : Bool
deriving DecidableEq

/-- The prove-and-verify stage shared by `transferMulti` and `withdrawMulti`
(`client.ts` lines 369–383 and 424–438): every transfer is proven and
verified; an invalid proof throws `invalid tx proof`, which rejects the
whole `Promise.all`. -/
def proveAndVerifyTxs : List ProvenTx → Except String (List ProvenTx)
  | [] => .ok []
  | t :: rest =>
    if t.proofValid then
      match proveAndVerifyTxs rest with
      | .ok ts => .ok (t :: ts)
      | .error e => .error e
    else .error ("invalid tx proof")

/-- The observable effect of reaching `sendTransactions`: the payload handed
to the relayer. -/
inductive SendAction where
  | sent (txs : List ProvenTx)
deriving DecidableEq

/-- Send skeleton of `transferMulti` / `withdrawMulti` (`client.ts` lines
340–443): an empty plan throws, otherwise all proofs are generated and
verified and only then is `sendTransactions` reached. -/
def multiTxSend (txParts : List TxAmount) (txsData : List ProvenTx) :
    Except String SendAction :=
  if txParts.length = 0 then
    .error ("Cannot find appropriate multitransfer configuration (insufficient funds?)")
  else
    match proveAndVerifyTxs txsData with
    | .ok txs => .ok (.sent txs)
    | .error e => .error e

/-- Send skeleton of the single-proof operations `deposit`,
`depositPermittable`, `transferSingle` and `withdrawSingle` (`client.ts`
lines 316–319, 476–479, 529–532, 567–570): the one proof is verified and an
invalid proof throws before `sendTransactions`. -/
def singleTxSend (tx : ProvenTx) : Except String SendAction :=
  if tx.proofValid then .ok (.sent [tx]) else .error ("invalid tx proof")

/-- State of a relayer job as reported by `getJob`. -/
inductive JobState where
  | pending
  | failed
  | completed
deriving DecidableEq

/-- A relayer job report.  The client's `getJob` surface (`client.ts` lines
83–93) carries only `state` and `txHash`; `relayerReason` stands for any
failure reason the relayer may hold for the job, which the client never
reads. -/
structure JobInfo where
  state : JobState
  txHash : List String
  relayerReason : String
deriving DecidableEq

/-- One poll iteration of `waitJobCompleted` (`client.ts` lines 256–270):
`none` (the relayer answered with a string, job unknown) throws immediately;
state `failed` throws; state `completed` returns the hashes; state `pending`
continues polling. -/
def waitJobStep (jobId : Nat) (job : Option JobInfo) :
    Except String (Option (List String)) :=
  match job with
  | none => .error ("Job " ++ toString jobId ++ " not found")
  | some j =>
    match j.state with
    | .failed => .error ("Transaction [job " ++ toString jobId ++ "] failed")
    | .completed => .ok (some j.txHash)
    | .pending => .ok none

/-- The polling loop of `waitJobCompleted` over a (finite prefix of the)
sequence of relayer responses: stop at the first throw or completion,
otherwise keep polling.  `.ok none` means the modelled responses ran out
while the job was still pending. -/
def waitJobCompleted (jobId : Nat) : List (Option JobInfo) →
    Except String (Option (List String))
  | [] => .ok none
  | r :: rest =>
    match waitJobStep jobId r with
    | .error e => .error e
    | .ok (some h) => .ok (some h)
    | .ok none => waitJobCompleted jobId rest

/-- `MAX_ATTEMPTS` constant of `waitReadyToTransact` (`client.ts` line 731). -/
def MAX_ATTEMPTS : Nat := 300

/-- The polling loop of `waitReadyToTransact` (`client.ts` lines 733–746):
call `updateState`; on readiness return `true`; otherwise increment the
attempt counter and give up with `false` once it exceeds `MAX_ATTEMPTS`.
`results k` is the outcome of the `k`-th `updateState` call; `remaining`
counts the attempts still allowed (`MAX_ATTEMPTS - attempts`), so the
recursion mirrors the loop exactly and is structurally terminating.
Returns the final boolean and the number of `updateState` calls made. -/
def waitReadyAux (results : Nat → Bool) : Nat → Nat → Bool × Nat
  | attempts, remaining =>
    if results attempts then (true, 1)
    else
      match remaining with
      | 0 => (false, 1)
      | rem + 1 =>
        let tail := waitReadyAux results (attempts + 1) rem
        (tail.1, tail.2 + 1)

/-- `waitReadyToTransact` over the sequence of `updateState` outcomes. -/
def waitReadyToTransact (results : Nat → Bool) : Bool × Nat :=
  waitReadyAux results 0 MAX_ATTEMPTS

/-- A concrete raw relayer entry used as evaluation input: mined flag `'1'`,
a 64-char hash block, a 64-char commitment block and a 2-char memo. -/
def sampleRawEntry : List Char :=
  '1' :: (List.replicate 64 'a' ++ (List.replicate 64 'b' ++ ['m', 'o']))

/-- Invariant of the part-building loop: the amounts of the produced parts
sum to exactly the portion of `remain` that was served, an empty result
leaves `remain` untouched, and a non-empty result leaves a non-negative
final remainder. -/
theorem partsLoop_invariant (fee : Int) (nps : List Int) :
    ∀ (one remain : Int),
      (((partsLoop fee nps one remain).1.map TxAmount.amount).sum
        = remain - (partsLoop fee nps one remain).2)
      ∧ ((partsLoop fee nps one remain).1 = [] → (partsLoop fee nps one remain).2 = remain)
      ∧ ((partsLoop fee nps one remain).1 ≠ [] → 0 ≤ (partsLoop fee nps one remain).2) := by
  induction nps with
  | nil =>
    intro one remain
    simp [partsLoop]
  | cons np rest ih =>
    intro one remain
    by_cases h0 : remain ≤ 0
    · simp [partsLoop, h0]
    · by_cases hclamp : (one + np) - fee > remain
      · by_cases hbrk : remain + fee < fee ∨ remain + fee < MIN_TX_AMOUNT
        · simp only [partsLoop, if_neg h0, if_pos hclamp, if_pos hbrk]
          simp
        · have hrec := ih 0 (remain - (remain + fee - fee))
          simp only [partsLoop, if_neg h0, if_pos hclamp, if_neg hbrk]
          obtain ⟨hsum, _, htail⟩ := hrec
          refine ⟨?_, by simp, ?_⟩
          · simp only [List.map_cons, List.sum_cons, hsum]
            ring
          · intro _
            rcases eq_or_ne (partsLoop fee rest 0 (remain - (remain + fee - fee))).1 [] with he | he
            · have := (ih 0 (remain - (remain + fee - fee))).2.1 he
              rw [this]
              omega
            · exact htail he
      · by_cases hbrk : (one + np) < fee ∨ (one + np) < MIN_TX_AMOUNT
        · simp only [partsLoop, if_neg h0, if_neg hclamp, if_pos hbrk]
          simp
        · have hrec := ih 0 (remain - ((one + np) - fee))
          simp only [partsLoop, if_neg h0, if_neg hclamp, if_neg hbrk]
          obtain ⟨hsum, hnil, htail⟩ := hrec
          refine ⟨?_, by simp, ?_⟩
          · simp only [List.map_cons, List.sum_cons, hsum]
            ring
          · intro _
            rcases eq_or_ne (partsLoop fee rest 0 (remain - ((one + np) - fee))).1 [] with he | he
            · have := hnil he
              rw [this]
              omega
            · exact htail he

/-- Claim C1: `getTransactionParts` is all-or-nothing — the result is either
the empty list (infeasibility) or a non-empty list whose part amounts sum to
exactly the requested `amountGwei`; in particular no non-empty plan with a
total below the request is ever returned. -/
theorem getTransactionParts_all_or_nothing (inMax : Nat) (noteValues : List Int)
    (accountBalance amountGwei feeGwei : Int) :
    getTransactionParts inMax noteValues accountBalance amountGwei feeGwei = []
    ∨ ((getTransactionParts inMax noteValues accountBalance amountGwei feeGwei).map
        TxAmount.amount).sum = amountGwei := by
  unfold getTransactionParts
  by_cases hb : accountBalance ≥ amountGwei + feeGwei
  · right
    simp [hb]
  · simp only [if_neg hb]
    obtain ⟨hsum, hnil, hpos⟩ :=
      partsLoop_invariant feeGwei (notesParts inMax noteValues) accountBalance amountGwei
    by_cases hr :
        (partsLoop feeGwei (notesParts inMax noteValues) accountBalance amountGwei).2 > 0
    · left
      simp [hr]
    · simp only [if_neg hr]
      rcases eq_or_ne
          (partsLoop feeGwei (notesParts inMax noteValues) accountBalance amountGwei).1 []
        with he | he
      · exact Or.inl he
      · right
        have hz :
            (partsLoop feeGwei (notesParts inMax noteValues) accountBalance amountGwei).2
              = 0 :=
          le_antisymm (not_lt.mp hr) (hpos he)
        rw [hsum, hz]
        ring

/-- Every part accepted by the note-chunk loop satisfies the
`MIN_TX_AMOUNT` floor on `amount + fee`. -/
theorem partsLoop_min_floor (fee : Int) (nps : List Int) :
    ∀ (one remain : Int) (p : TxAmount), p ∈ (partsLoop fee nps one remain).1 →
      MIN_TX_AMOUNT ≤ p.amount + p.fee := by
  induction nps with
  | nil =>
    intro one remain p hp
    simp [partsLoop] at hp
  | cons np rest ih =>
    intro one remain p hp
    by_cases h0 : remain ≤ 0
    · simp [partsLoop, h0] at hp
    · by_cases hclamp : (one + np) - fee > remain
      · by_cases hbrk : remain + fee < fee ∨ remain + fee < MIN_TX_AMOUNT
        · simp only [partsLoop, if_neg h0, if_pos hclamp, if_pos hbrk] at hp
          exact absurd hp (List.not_mem_nil p)
        · simp only [partsLoop, if_neg h0, if_pos hclamp, if_neg hbrk,
            List.mem_cons] at hp
          rcases hp with hp | hp
          · push_neg at hbrk
            subst hp
            simpa using hbrk.2
          · exact ih 0 _ p hp
      · by_cases hbrk : (one + np) < fee ∨ (one + np) < MIN_TX_AMOUNT
        · simp only [partsLoop, if_neg h0, if_neg hclamp, if_pos hbrk] at hp
          exact absurd hp (List.not_mem_nil p)
        · simp only [partsLoop, if_neg h0, if_neg hclamp, if_neg hbrk,
            List.mem_cons] at hp
          rcases hp with hp | hp
          · push_neg at hbrk
            subst hp
            simpa using hbrk.2
          · exact ih 0 _ p hp

/-- Claim C10: the `MIN_TX_AMOUNT` floor is enforced only on the note-chunk
path — whenever the account balance does not cover `amountGwei + feeGwei`,
every returned part satisfies `amount + fee ≥ MIN_TX_AMOUNT`; but the
single-part path performs no such check, and at `amountGwei = 0`,
`feeGwei = 0`, `accountBalance = 0` it returns a non-empty plan whose single
part has `amount + fee = 0 < MIN_TX_AMOUNT`. -/
theorem getTransactionParts_min_floor_note_path_only :
    (∀ (inMax : Nat) (noteValues : List Int) (accountBalance amountGwei feeGwei : Int),
        accountBalance < amountGwei + feeGwei →
        ∀ p ∈ getTransactionParts inMax noteValues accountBalance amountGwei feeGwei,
          MIN_TX_AMOUNT ≤ p.amount + p.fee)
    ∧ getTransactionParts 3 [] 0 0 0 = [⟨0, 0, 0⟩]
    ∧ ((0 : Int) + 0 < MIN_TX_AMOUNT) := by
  refine ⟨?_, by rfl, by norm_num [MIN_TX_AMOUNT]⟩
  intro inMax noteValues accountBalance amountGwei feeGwei hlt p hp
  unfold getTransactionParts at hp
  rw [if_neg (not_le.mpr hlt)] at hp
  by_cases hr :
      (partsLoop feeGwei (notesParts inMax noteValues) accountBalance amountGwei).2 > 0
  · simp [hr] at hp
  · rw [if_neg hr] at hp
    exact partsLoop_min_floor feeGwei (notesParts inMax noteValues)
      accountBalance amountGwei p hp

/-- Evaluation of the C10 theorem's universal part at a concrete feasible
note-path input. -/
theorem getTransactionParts_min_floor_witness :
    (0 : Int) < 10000000 + 0
    ∧ ∀ p ∈ getTransactionParts 3 [20000000] 0 10000000 0,
        MIN_TX_AMOUNT ≤ p.amount + p.fee :=
  ⟨by norm_num,
   getTransactionParts_min_floor_note_path_only.1 3 [20000000] 0 10000000 0 (by norm_num)⟩

/-- The final clamp `if summ < 0 then 0 else summ` is `max 0 summ`. -/
theorem int_clamp_nonneg (x : Int) : (if x < 0 then 0 else x) = max 0 x := by
  split
  · exact (max_eq_left (le_of_lt (by assumption))).symm
  · exact (max_eq_right (not_lt.mp (by assumption))).symm

/-- Claim C5: `calcMaxAvailableTransfer` computes exactly
`max(0, accountBalance + Σ(usableNotes) − feePerTx × estimatedPartCount)`
with `estimatedPartCount = 1 + ceil(max(0, noteCount − MAX_INPUTS) / MAX_INPUTS)`,
in exact integer arithmetic. -/
theorem calcMaxAvailableTransfer_eq_spec (inMax : Nat) (noteValues : List Int)
    (accountBalance txFee : Int) (hIn : 0 < inMax) :
    calcMaxAvailableTransfer inMax noteValues accountBalance txFee
      = specMaxAvailableTransfer inMax noteValues accountBalance txFee := by
  unfold calcMaxAvailableTransfer specMaxAvailableTransfer specEstimatedPartCount
  have hfold : noteValues.foldl (fun a b => a + b) 0 = noteValues.sum :=
    List.sum_eq_foldl.symm
  by_cases hlen : inMax < noteValues.length
  · simp only [if_pos hlen, hfold]
    exact int_clamp_nonneg _
  · have hzero : noteValues.length - inMax = 0 := by omega
    have hceil : ceilDivNat (noteValues.length - inMax) inMax = 0 := by
      rw [hzero]
      unfold ceilDivNat
      exact Nat.div_eq_of_lt (by omega)
    simp only [if_neg hlen, hfold, hceil]
    exact int_clamp_nonneg _

/-- Evaluation of the C5 theorem at a concrete state: five notes with
`MAX_INPUTS = 3` give an estimated part count of 2. -/
theorem calcMaxAvailableTransfer_eq_spec_witness :
    0 < 3
    ∧ calcMaxAvailableTransfer 3 [100, 100, 100, 100, 100] 50 10
        = specMaxAvailableTransfer 3 [100, 100, 100, 100, 100] 50 10 :=
  ⟨by norm_num,
   calcMaxAvailableTransfer_eq_spec 3 [100, 100, 100, 100, 100] 50 10 (by norm_num)⟩

/-- The pending-delta accumulator is additive in its starting value. -/
theorem pendingDeltaStep_add (a : Int) (r : HistoryRecord) :
    pendingDeltaStep a r = a + pendingDeltaStep 0 r := by
  unfold pendingDeltaStep
  by_cases hp : r.pending
  · cases r.type <;> simp [hp] <;> ring
  · simp [hp]

/-- One record's contribution to the pending delta, in the spec's terms. -/
theorem pendingDeltaStep_zero (r : HistoryRecord) :
    pendingDeltaStep 0 r
      = (if r.pending ∧ (r.type = .Deposit ∨ r.type = .TransferIn) then r.amount else 0)
        - (if r.pending ∧ (r.type = .Withdrawal ∨ r.type = .TransferOut) then
            r.amount + r.fee
          else 0) := by
  unfold pendingDeltaStep
  by_cases hp : r.pending
  · cases r.type <;> simp [hp]
  · simp [hp]

/-- Folding the pending-delta accumulator from any starting value shifts
the result by that value. -/
theorem pendingDelta_foldl_shift (l : List HistoryRecord) :
    ∀ a : Int, l.foldl pendingDeltaStep a = a + l.foldl pendingDeltaStep 0 := by
  induction l with
  | nil =>
    intro a
    simp
  | cons r rest ih =>
    intro a
    simp only [List.foldl_cons]
    rw [ih (pendingDeltaStep a r), ih (pendingDeltaStep 0 r), pendingDeltaStep_add a r]
    ring

/-- Claim C4: `getOptimisticTotalBalance` equals the confirmed balance plus
the sum of pending incoming amounts (Deposit, TransferIn: amount only) minus
the sum of pending outgoing amounts plus their fees (Withdrawal,
TransferOut: amount + fee); non-pending records contribute nothing. -/
theorem getOptimisticTotalBalance_eq_spec (confirmedBalance : Int)
    (historyRecords : List HistoryRecord) :
    getOptimisticTotalBalance confirmedBalance historyRecords
      = confirmedBalance + pendingIncomingSum historyRecords
        - pendingOutgoingSum historyRecords := by
  unfold getOptimisticTotalBalance
  suffices h : historyRecords.foldl pendingDeltaStep 0
      = pendingIncomingSum historyRecords - pendingOutgoingSum historyRecords by
    rw [h]
    ring
  induction historyRecords with
  | nil => simp [pendingIncomingSum, pendingOutgoingSum]
  | cons r rest ih =>
    simp only [List.foldl_cons]
    rw [pendingDelta_foldl_shift rest (pendingDeltaStep 0 r), ih, pendingDeltaStep_zero r]
    unfold pendingIncomingSum pendingOutgoingSum
    simp only [List.map_cons, List.sum_cons]
    ring

/-- The mined-flag test `tx.substr(0, 1) === '1'` inspects exactly
character 0. -/
theorem take_one_eq_one (tx : List Char) : tx.take 1 = ['1'] ↔ tx[0]? = some '1' := by
  cases tx with
  | nil => simp
  | cons a l => simp [List.take_succ_cons]

/-- Each entry of a batch is routed by its mined flag: flag `'1'` puts its
parsed form into the mined list, anything else into the pending list,
with the entry index derived from the batch position. -/
theorem classifyAux_routes (i opo : Nat) :
    ∀ (txs : List (List Char)) (t0 k : Nat) (tx : List Char),
      txs[k]? = some tx →
      (tx[0]? = some '1' →
        parseEntry i opo (t0 + k) tx ∈ (classifyAux i opo t0 txs).indexedTxs)
      ∧ (tx[0]? ≠ some '1' →
        parseEntry i opo (t0 + k) tx ∈ (classifyAux i opo t0 txs).indexedTxsPending) := by
  intro txs
  induction txs with
  | nil =>
    intro t0 k tx h
    simp at h
  | cons hd tl ih =>
    intro t0 k tx h
    cases k with
    | zero =>
      simp only [List.getElem?_cons_zero, Option.some.injEq] at h
      subst h
      constructor
      · intro hflag
        have hfl : hd.take 1 = ['1'] := (take_one_eq_one hd).mpr hflag
        simp only [classifyAux, if_pos hfl, Nat.add_zero]
        exact List.mem_cons_self _ _
      · intro hflag
        have hfl : ¬ hd.take 1 = ['1'] := fun hc => hflag ((take_one_eq_one hd).mp hc)
        simp only [classifyAux, if_neg hfl, Nat.add_zero]
        exact List.mem_cons_self _ _
    | succ k' =>
      simp only [List.getElem?_cons_succ] at h
      have hrec := ih (t0 + 1) k' tx h
      have hidx : t0 + 1 + k' = t0 + (k' + 1) := by omega
      rw [hidx] at hrec
      constructor
      · intro hflag
        have hm := hrec.1 hflag
        by_cases hfl : hd.take 1 = ['1']
        · simp only [classifyAux, if_pos hfl]
          exact List.mem_cons_of_mem _ hm
        · simp only [classifyAux, if_neg hfl]
          exact hm
      · intro hflag
        have hm := hrec.2 hflag
        by_cases hfl : hd.take 1 = ['1']
        · simp only [classifyAux, if_pos hfl]
          exact hm
        · simp only [classifyAux, if_neg hfl]
          exact List.mem_cons_of_mem _ hm

/-- Each entry of a batch lands in exactly one of the two decryption-call
lists: the lengths of the mined and pending lists add up to the batch size. -/
theorem classifyAux_length (i opo : Nat) :
    ∀ (txs : List (List Char)) (t0 : Nat),
      (classifyAux i opo t0 txs).indexedTxs.length
        + (classifyAux i opo t0 txs).indexedTxsPending.length = txs.length := by
  intro txs
  induction txs with
  | nil =>
    intro t0
    simp [classifyAux]
  | cons hd tl ih =>
    intro t0
    by_cases hfl : hd.take 1 = ['1']
    · simp only [classifyAux, if_pos hfl, List.length_cons]
      rw [← ih (t0 + 1)]
      omega
    · simp only [classifyAux, if_neg hfl, List.length_cons]
      rw [← ih (t0 + 1)]
      omega

/-- Claim C7: the raw-entry layout and routing of the sync worker: the
mined and pending lists partition the batch; the entry at batch position
`k` is classified mined iff its character 0 is `'1'` and parsed with index
`i + k * OUTPLUSONE`; the parsed memo reads the characters from offset 129
on, the commitment the 64 characters from offset 65, and the tx hash the 64
characters from offset 1. -/
theorem classifier_layout_and_routing (i opo : Nat) (txs : List (List Char)) :
    ((classifyBatch i opo txs).indexedTxs.length
      + (classifyBatch i opo txs).indexedTxsPending.length = txs.length)
    ∧ (∀ (k : Nat) (tx : List Char), txs[k]? = some tx →
        (tx[0]? = some '1' →
          parseEntry i opo k tx ∈ (classifyBatch i opo txs).indexedTxs)
        ∧ (tx[0]? ≠ some '1' →
          parseEntry i opo k tx ∈ (classifyBatch i opo txs).indexedTxsPending))
    ∧ (∀ (tx : List Char) (k j : Nat),
        (parseEntry i opo k tx).index = i + k * opo
        ∧ (parseEntry i opo k tx).memo[j]? = tx[129 + j]?
        ∧ (parseEntry i opo k tx).commitment[j]?
            = (if j < 64 then tx[65 + j]? else none)
        ∧ (entryTxHash tx)[j]? = (if j < 64 then tx[1 + j]? else none)) := by
  refine ⟨classifyAux_length i opo txs 0, ?_, ?_⟩
  · intro k tx h
    have := classifyAux_routes i opo txs 0 k tx h
    simpa [classifyBatch] using this
  · intro tx k j
    refine ⟨rfl, ?_, ?_, ?_⟩
    · exact List.getElem?_drop tx 129 j
    · unfold parseEntry
      rw [List.getElem?_take]
      by_cases hj : j < 64
      · rw [if_pos hj, if_pos hj, List.getElem?_drop]
      · rw [if_neg hj, if_neg hj]
    · unfold entryTxHash
      rw [List.getElem?_take]
      by_cases hj : j < 64
      · rw [if_pos hj, if_pos hj, List.getElem?_drop]
      · rw [if_neg hj, if_neg hj]

set_option maxRecDepth 4000 in
/-- Evaluation of the C7 theorem's routing part on a concrete mined entry. -/
theorem classifier_layout_and_routing_witness :
    ([sampleRawEntry][0]? = some sampleRawEntry)
    ∧ (sampleRawEntry[0]? = some '1')
    ∧ parseEntry 0 128 0 sampleRawEntry ∈ (classifyBatch 0 128 [sampleRawEntry]).indexedTxs :=
  ⟨rfl, rfl,
   ((classifier_layout_and_routing 0 128 [sampleRawEntry]).2.1 0 sampleRawEntry rfl).1 rfl⟩

/-- Counterexample to claim C2 as stated: a state whose `nextTreeIndex`
equals (and hence covers) the relayer's latest confirmed `deltaIndex`
(both 128, one mined transaction with `OUTPLUSONE = 128`), where the remote
has no new entries.  The cycle still returns `true` but issues one batch
fetch at offset 128, not zero, because the `optimisticIndex = nextIndex + 1`
workaround keeps the fetch branch live at `startIndex = nextIndex`. -/
theorem updateState_refetches_at_delta_boundary :
    updateStateOptimisticWorker 128 128 128 (fun _ => []) (fun _ => [])
      = ⟨true, [128]⟩ := by
  rfl

/-- Claim C2 (amended): whenever the local `nextTreeIndex` strictly exceeds
the relayer's latest confirmed `deltaIndex` (so `optimisticIndex ≤
startIndex`), a further `updateState` cycle returns `true` and issues zero
batch fetches. -/
theorem updateState_no_fetch_past_delta (opo startIndex nextIndex : Nat)
    (fetchTxs : Nat → List (List Char))
    (parseTxs : List IndexedTx → List DecryptedMemo)
    (h : nextIndex < startIndex) :
    updateStateOptimisticWorker opo startIndex nextIndex fetchTxs parseTxs
      = ⟨true, []⟩ := by
  unfold updateStateOptimisticWorker
  rw [if_neg (by omega)]

/-- Evaluation of the amended C2 theorem at `startIndex = 129`,
`deltaIndex = 128`. -/
theorem updateState_no_fetch_past_delta_witness :
    128 < 129
    ∧ updateStateOptimisticWorker 128 129 128 (fun _ => []) (fun _ => [])
        = ⟨true, []⟩ :=
  ⟨by norm_num,
   updateState_no_fetch_past_delta 128 129 128 (fun _ => []) (fun _ => []) (by norm_num)⟩

/-- Claim C3: single-flight synchronization.  In the promise-scheduling
model of `updateState`: two overlapping calls start exactly one worker
cycle, both resolve to that cycle's single outcome (identical, whether the
promise fulfils or rejects), the guard is cleared by the settlement, and a
subsequent call starts a fresh cycle; in general every caller awaiting the
in-flight promise receives the same settled outcome. -/
theorem updateState_single_flight (r : Option Bool) (s : SyncGuardState)
    (cs : List Nat) :
    ((syncRun initialSyncState [.call 0, .call 1, .settle r]).cyclesStarted = 1
      ∧ (syncRun initialSyncState [.call 0, .call 1, .settle r]).resolved
          = [(0, r), (1, r)]
      ∧ (syncRun initialSyncState [.call 0, .call 1, .settle r]).inFlight = none
      ∧ (syncRun initialSyncState
          [.call 0, .call 1, .settle r, .call 2]).cyclesStarted = 2)
    ∧ (s.inFlight = some cs →
        ∀ c ∈ cs, (c, r) ∈ (syncStep s (.settle r)).resolved) := by
  constructor
  · exact ⟨rfl, rfl, rfl, rfl⟩
  · intro h c hc
    simp only [syncStep, h]
    exact List.mem_append_right _ (List.mem_map.mpr ⟨c, hc, rfl⟩)

/-- Evaluation of the C3 theorem's general part at a concrete guard state
with one awaiting caller. -/
theorem updateState_single_flight_witness :
    (⟨some [7], 1, []⟩ : SyncGuardState).inFlight = some [7]
    ∧ ∀ c ∈ [7], (c, some true)
        ∈ (syncStep ⟨some [7], 1, []⟩ (.settle (some true))).resolved :=
  ⟨rfl, (updateState_single_flight (some true) ⟨some [7], 1, []⟩ [7]).2 rfl⟩

/-- If any locally generated proof fails verification, the shared
prove-and-verify stage rejects with the `invalid tx proof` error. -/
theorem proveAndVerifyTxs_rejects (ts : List ProvenTx) :
    (∃ t ∈ ts, t.proofValid = false) →
    proveAndVerifyTxs ts = .error ("invalid tx proof") := by
  induction ts with
  | nil =>
    rintro ⟨t, ht, _⟩
    simp at ht
  | cons t rest ih =>
    rintro ⟨u, hu, huv⟩
    by_cases hv : t.proofValid
    · have hrest : ∃ v ∈ rest, v.proofValid = false := by
        rcases List.mem_cons.mp hu with h | h
        · subst h
          rw [hv] at huv
          cases huv
        · exact ⟨u, h, huv⟩
      simp only [proveAndVerifyTxs, if_pos hv, ih hrest]
    · simp only [proveAndVerifyTxs, if_neg hv]

/-- Claim C6: in every transaction-sending operation, a locally generated
proof that fails `Proof.verify` makes the operation throw, and
`sendTransactions` is never reached — for the multi-part operations
(`transferMulti`, `withdrawMulti`) and for the single-proof operations
(`deposit`, `depositPermittable`, `transferSingle`, `withdrawSingle`)
alike. -/
theorem invalid_proof_never_sent :
    (∀ (txParts : List TxAmount) (txsData : List ProvenTx),
        (∃ t ∈ txsData, t.proofValid = false) →
        ∀ a, multiTxSend txParts txsData ≠ .ok a)
    ∧ (∀ tx : ProvenTx, tx.proofValid = false → ∀ a, singleTxSend tx ≠ .ok a) := by
  constructor
  · intro txParts txsData hbad a
    unfold multiTxSend
    by_cases hp : txParts.length = 0
    · simp [hp]
    · rw [if_neg hp, proveAndVerifyTxs_rejects txsData hbad]
      simp
  · intro tx hbad a
    unfold singleTxSend
    rw [if_neg (by simp [hbad])]
    simp

/-- Evaluation of the C6 theorem at a one-transaction batch whose proof
fails verification. -/
theorem invalid_proof_never_sent_witness :
    (∃ t ∈ [(⟨['m'], false⟩ : ProvenTx)], t.proofValid = false)
    ∧ ∀ a, multiTxSend [⟨0, 0, 0⟩] [⟨['m'], false⟩] ≠ .ok a :=
  ⟨⟨⟨['m'], false⟩, List.mem_singleton.mpr rfl, rfl⟩,
   invalid_proof_never_sent.1 [⟨0, 0, 0⟩] [⟨['m'], false⟩]
     ⟨⟨['m'], false⟩, List.mem_singleton.mpr rfl, rfl⟩⟩

/-- Counterexample to claim C8 as stated: two relayer job reports that
differ only in the relayer-supplied failure reason produce the identical
thrown error, whose message names only the job id — `waitJobCompleted`
does not surface the relayer-supplied reason (its `getJob` surface never
even reads one). -/
theorem failed_job_error_ignores_reason :
    waitJobCompleted 5 [some ⟨.failed, [], "reasonA"⟩]
        = .error ("Transaction [job 5] failed")
    ∧ waitJobCompleted 5 [some ⟨.failed, [], "reasonB"⟩]
        = .error ("Transaction [job 5] failed")
    ∧ ("reasonA" : String) ≠ "reasonB" := by
  refine ⟨?_, ?_, by decide⟩ <;> rfl

/-- Claim C8 (amended): `waitJobCompleted` throws when the relayer reports
the job `failed`, with a message naming the job id (but carrying no
relayer-supplied reason); a job id the relayer does not know throws
immediately, regardless of any later responses — it is not retried. -/
theorem waitJobCompleted_failures (jobId : Nat) (rest : List (Option JobInfo))
    (j : JobInfo) :
    waitJobCompleted jobId (none :: rest)
        = .error ("Job " ++ toString jobId ++ " not found")
    ∧ (j.state = .failed →
        waitJobCompleted jobId (some j :: rest)
          = .error ("Transaction [job " ++ toString jobId ++ "] failed")) := by
  constructor
  · rfl
  · intro h
    simp [waitJobCompleted, waitJobStep, h]

/-- Evaluation of the amended C8 theorem on a concrete failed job. -/
theorem waitJobCompleted_failures_witness :
    (⟨.failed, [], "boom"⟩ : JobInfo).state = .failed
    ∧ waitJobCompleted 9 [some ⟨.failed, [], "boom"⟩]
        = .error ("Transaction [job " ++ toString 9 ++ "] failed") :=
  ⟨rfl, (waitJobCompleted_failures 9 [] ⟨.failed, [], "boom"⟩).2 rfl⟩

/-- The polling loop makes at most `remaining + 1` calls and, when every
call reports not-ready, returns `false`. -/
theorem waitReadyAux_bounded (results : Nat → Bool) :
    ∀ (remaining attempts : Nat),
      (waitReadyAux results attempts remaining).2 ≤ remaining + 1
      ∧ ((∀ i, results i = false) →
          (waitReadyAux results attempts remaining).1 = false) := by
  intro remaining
  induction remaining with
  | zero =>
    intro attempts
    constructor
    · by_cases h : results attempts
      · simp [waitReadyAux, h]
      · simp [waitReadyAux, h]
    · intro hall
      simp [waitReadyAux, hall attempts]
  | succ rem ih =>
    intro attempts
    constructor
    · by_cases h : results attempts
      · simp [waitReadyAux, h]
      · have := (ih (attempts + 1)).1
        simp only [waitReadyAux, if_neg h]
        omega
    · intro hall
      have := (ih (attempts + 1)).2 hall
      simp [waitReadyAux, hall attempts]
      exact this

/-- Claim C9: `waitReadyToTransact` makes at most `MAX_ATTEMPTS + 1`
`updateState` calls (so, each call terminating, the loop never runs
forever) and, when readiness is never reported within the bound, returns
`false` rather than throwing. -/
theorem waitReadyToTransact_bounded (results : Nat → Bool) :
    (waitReadyToTransact results).2 ≤ MAX_ATTEMPTS + 1
    ∧ ((∀ i, results i = false) → (waitReadyToTransact results).1 = false) :=
  ⟨(waitReadyAux_bounded results MAX_ATTEMPTS 0).1,
   fun hall => (waitReadyAux_bounded results MAX_ATTEMPTS 0).2 hall⟩

/-- Evaluation of the C9 theorem when `updateState` never reports ready. -/
theorem waitReadyToTransact_bounded_witness :
    (∀ i : Nat, (fun _ : Nat => false) i = false)
    ∧ (waitReadyToTransact (fun _ => false)).2 ≤ MAX_ATTEMPTS + 1
    ∧ (waitReadyToTransact (fun _ => false)).1 = false :=
  ⟨fun _ => rfl,
   (waitReadyToTransact_bounded (fun _ => false)).1,
   (waitReadyToTransact_bounded (fun _ => false)).2 (fun _ => rfl)⟩

end Zeropool
